import Mathlib

/-!
Verification of the microproxy authentication and upstream-routing engine.

The definitions below are a shallow embedding of the Go source:
`proxyhealth.go` (health tracker, forward-proxy resolver, CONNECT dialing,
bind-address checking) and the auth module (407 challenges, Basic/Digest
`Proxy-Authorization` header parsing).  Go strings are modelled as Lean
`String`s, with explicit UTF-8 byte lists (`List Nat`) where the Go code
works on raw bytes (base64, percent-decoding).  Go `nil` results are
`Option.none`; a Go runtime panic is modelled by the `GoResult.crash`
value of an explicit result type.
-/

/-- UTF-8 encoding of one character, as its list of bytes (each < 256).
Models the byte representation underlying a Go string. -/
def utf8Bytes (c : Char) : List Nat :=
  let n := c.toNat
  if n < 128 then [n]
  else if n < 2048 then [192 + n / 64, 128 + n % 64]
  else if n < 65536 then [224 + n / 4096, 128 + (n / 64) % 64, 128 + n % 64]
  else [240 + n / 262144, 128 + (n / 4096) % 64, 128 + (n / 64) % 64, 128 + n % 64]

/-- The bytes of a Go string (UTF-8 encoding of its characters). -/
def strBytes (s : String) : List Nat :=
  (s.data.map utf8Bytes).flatten

/-- Split a list at the first occurrence of `sep`: returns the parts before
and after, or `none` when `sep` does not occur.  This is the engine behind
Go's `strings.SplitN(s, sep, 2)` for a one-character separator and behind
`bytes`-level splitting at a byte. -/
def breakAtElem {α : Type} [DecidableEq α] (sep : α) : List α → Option (List α × List α)
  | [] => none
  | c :: rest =>
    if c = sep then some ([], rest)
    else (breakAtElem sep rest).map (fun p => (c :: p.1, p.2))

/-- Go's `strings.SplitN(s, sep, 2)` for a single-character separator:
either `[before, after]` or `[s]` when the separator is absent. -/
def goSplitN2 (s : String) (sep : Char) : List String :=
  match breakAtElem sep s.data with
  | none => [s]
  | some (a, b) => [String.mk a, String.mk b]

/-- Trim all leading and trailing occurrences of characters satisfying `p`,
as Go's `strings.Trim` does for a one-character cutset. -/
def trimEnds (p : Char → Bool) (l : List Char) : List Char :=
  ((l.dropWhile p).reverse.dropWhile p).reverse

theorem breakAtElem_append {α : Type} [DecidableEq α] (sep : α) (a b : List α)
    (ha : sep ∉ a) : breakAtElem sep (a ++ sep :: b) = some (a, b) := by
  induction a with
  | nil => simp [breakAtElem]
  | cons x xs ih =>
    have hx : x ≠ sep := by
      intro h
      exact ha (by simp [h])
    have hxs : sep ∉ xs := fun h => ha (List.mem_cons_of_mem _ h)
    simp [breakAtElem, hx, ih hxs]

theorem breakAtElem_eq_none {α : Type} [DecidableEq α] (sep : α) (l : List α) :
    breakAtElem sep l = none ↔ sep ∉ l := by
  induction l with
  | nil => simp [breakAtElem]
  | cons x xs ih =>
    by_cases hx : x = sep
    · simp [breakAtElem, hx]
    · have hx' : sep ≠ x := fun h => hx h.symm
      cases h : breakAtElem sep xs with
      | none =>
        have hns : sep ∉ xs := (ih).mp h
        simp [breakAtElem, hx, h, hx', hns]
      | some p =>
        have hin : sep ∈ xs := by
          by_contra hne
          rw [ih.mpr hne] at h
          exact Option.noConfusion h
        simp [breakAtElem, hx, h, hin]

theorem breakAtElem_eq_some {α : Type} [DecidableEq α] (sep : α) (l a b : List α)
    (h : breakAtElem sep l = some (a, b)) : l = a ++ sep :: b ∧ sep ∉ a := by
  induction l generalizing a b with
  | nil => simp [breakAtElem] at h
  | cons x xs ih =>
    by_cases hx : x = sep
    · simp only [breakAtElem, if_pos hx, Option.some_inj] at h
      have ha : a = [] := (congrArg Prod.fst h).symm
      have hb : b = xs := (congrArg Prod.snd h).symm
      subst hx
      simp [ha, hb]
    · simp only [breakAtElem, if_neg hx] at h
      cases hrec : breakAtElem sep xs with
      | none =>
        rw [hrec] at h
        exact Option.noConfusion h
      | some pq =>
        rw [hrec] at h
        simp only [Option.map_some', Option.some_inj] at h
        have ha : a = x :: pq.1 := (congrArg Prod.fst h).symm
        have hb : b = pq.2 := (congrArg Prod.snd h).symm
        obtain ⟨hl, hnot⟩ := ih pq.1 pq.2 (by rw [hrec])
        constructor
        · rw [ha, hb]
          simp [hl]
        · rw [ha]
          intro hmem
          rcases List.mem_cons.mp hmem with h1 | h2
          · exact hx h1.symm
          · exact hnot h2

/-- Value of a standard base64 alphabet character, as in Go's
`encoding/base64.StdEncoding`. -/
def b64Val (c : Char) : Option Nat :=
  if 'A' ≤ c ∧ c ≤ 'Z' then some (c.toNat - 65)
  else if 'a' ≤ c ∧ c ≤ 'z' then some (c.toNat - 97 + 26)
  else if '0' ≤ c ∧ c ≤ '9' then some (c.toNat - 48 + 52)
  else if c = '+' then some 62
  else if c = '/' then some 63
  else none

/-- Character of the standard base64 alphabet for a 6-bit value. -/
def b64Char (n : Nat) : Char :=
  "ABCDEFGHIJKLMNOPQRSTUVWXYZabcdefghijklmnopqrstuvwxyz0123456789+/".data.getD n 'A'

/-- Go's `base64.StdEncoding.EncodeToString` over a byte list. -/
def base64Encode : List Nat → String
  | [] => ""
  | [a] => String.mk [b64Char (a / 4), b64Char (a % 4 * 16), '=', '=']
  | [a, b] => String.mk [b64Char (a / 4), b64Char (a % 4 * 16 + b / 16), b64Char (b % 16 * 4), '=']
  | a :: b :: c :: rest =>
    String.mk [b64Char (a / 4), b64Char (a % 4 * 16 + b / 16),
      b64Char (b % 16 * 4 + c / 64), b64Char (c % 64)] ++ base64Encode rest

/-- Decode one base64 quantum after another; `'='` padding is only legal in
the final quantum, as in Go's `base64.StdEncoding.DecodeString`. -/
def b64DecodeGroups : List Char → Option (List Nat)
  | [] => some []
  | a :: b :: c :: d :: rest =>
    match b64Val a, b64Val b with
    | some va, some vb =>
      if c = '=' then
        if d = '=' ∧ rest = [] then some [va * 4 + vb / 16] else none
      else
        match b64Val c with
        | some vc =>
          if d = '=' then
            if rest = [] then some [va * 4 + vb / 16, vb % 16 * 16 + vc / 4] else none
          else
            match b64Val d with
            | some vd =>
              (b64DecodeGroups rest).map
                (fun t => (va * 4 + vb / 16) :: (vb % 16 * 16 + vc / 4) :: (vc % 4 * 64 + vd) :: t)
            | none => none
        | none => none
    | _, _ => none
  | _ => none

/-- Go's `base64.StdEncoding.DecodeString`: ignores CR/LF, then decodes
4-character quanta with optional terminal padding; any other irregularity
is an error (`none`). -/
def base64Decode (s : String) : Option (List Nat) :=
  b64DecodeGroups (s.data.filter (fun c => c ≠ '\r' ∧ c ≠ '\n'))

/-- Numeric value of a hexadecimal digit byte (used by percent-decoding). -/
def hexByteVal (b : Nat) : Option Nat :=
  if 48 ≤ b ∧ b ≤ 57 then some (b - 48)
  else if 65 ≤ b ∧ b ≤ 70 then some (b - 65 + 10)
  else if 97 ≤ b ∧ b ≤ 102 then some (b - 97 + 10)
  else none

/-- Go's `url.QueryUnescape` at the byte level: `'+'` (43) becomes a space
(32), `%XY` becomes the byte `0xXY`, a malformed escape is an error. -/
def queryUnescapeB : List Nat → Option (List Nat)
  | [] => some []
  | 37 :: a :: b :: rest =>
    match hexByteVal a, hexByteVal b with
    | some x, some y => (queryUnescapeB rest).map (fun t => (x * 16 + y) :: t)
    | _, _ => none
  | 37 :: _ => none
  | 43 :: rest => (queryUnescapeB rest).map (fun t => 32 :: t)
  | c :: rest => (queryUnescapeB rest).map (fun t => c :: t)

/-- Uppercase hexadecimal digit character for a value below 16, as used by
Go's percent-encoder. -/
def upperHexChar (n : Nat) : Char :=
  "0123456789ABCDEF".data.getD n '0'

/-- Go's `shouldEscape(c, encodeUserPassword)`: a byte of a userinfo
component is left unescaped iff it is alphanumeric, one of the unreserved
marks, or one of the sub-delims the userinfo production permits. -/
def shouldEscapeUserinfo (b : Nat) : Bool :=
  if (65 ≤ b ∧ b ≤ 90) ∨ (97 ≤ b ∧ b ≤ 122) ∨ (48 ≤ b ∧ b ≤ 57) then false
  else if b = 45 ∨ b = 95 ∨ b = 46 ∨ b = 126 then false
  else if b = 36 ∨ b = 38 ∨ b = 43 ∨ b = 44 ∨ b = 59 ∨ b = 61 then false
  else true

/-- Percent-encode a byte list in Go's userinfo mode (used by
`url.Userinfo.String`). -/
def escapeUserinfo : List Nat → List Char
  | [] => []
  | b :: rest =>
    if shouldEscapeUserinfo b then
      '%' :: upperHexChar (b / 16) :: upperHexChar (b % 16) :: escapeUserinfo rest
    else
      Char.ofNat b :: escapeUserinfo rest

/-- Decode a percent-encoded userinfo component (Go's `unescape` in
`encodeUserPassword` mode, which does not map `'+'` to a space).  Works
character-wise, which agrees with the byte-wise original on ASCII input. -/
def unescapeUserinfoChars : List Char → Option (List Char)
  | [] => some []
  | '%' :: a :: b :: rest =>
    match hexByteVal a.toNat, hexByteVal b.toNat with
    | some x, some y => (unescapeUserinfoChars rest).map (fun t => Char.ofNat (x * 16 + y) :: t)
    | _, _ => none
  | '%' :: _ => none
  | c :: rest => (unescapeUserinfoChars rest).map (fun t => c :: t)

/-- Model of Go's `url.Userinfo`: decoded username and optional password. -/
structure Userinfo where
  username : String
  password : Option String
deriving DecidableEq, Repr

/-- Go's `url.Userinfo.String`: re-encode the username, and the password
after a colon when one was set. -/
def userinfoString (ui : Userinfo) : String :=
  String.mk (escapeUserinfo (strBytes ui.username)) ++
    (match ui.password with
     | some p => ":" ++ String.mk (escapeUserinfo (strBytes p))
     | none => "")

/-- Model of Go's `url.URL`, restricted to the components this codebase
reads: scheme, userinfo, host and the remainder of the input. -/
structure URL where
  scheme : String
  user : Option Userinfo
  host : String
  rest : String
deriving DecidableEq, Repr

/-- Go's `proxyURL.User.String()`: the empty string when no userinfo is
present (a method call on a nil `*Userinfo` returns `""`). -/
def urlUserString (u : URL) : String :=
  match u.user with
  | none => ""
  | some ui => userinfoString ui

/-- Go's `proxyURL.User.Username()`: likewise `""` when absent. -/
def urlUsername (u : URL) : String :=
  match u.user with
  | none => ""
  | some ui => ui.username

/-- Split a character list at the first `"://"`, yielding the scheme part
and the remainder. -/
def splitSchemeSep : List Char → Option (List Char × List Char)
  | [] => none
  | ':' :: '/' :: '/' :: rest => some ([], rest)
  | c :: rest => (splitSchemeSep rest).map (fun p => (c :: p.1, p.2))

/-- Split a character list at its last occurrence of `sep` (Go's
`strings.LastIndex`-based userinfo split). -/
def breakAtLast (sep : Char) (l : List Char) : Option (List Char × List Char) :=
  match breakAtElem sep l.reverse with
  | none => none
  | some (a, b) => some (b.reverse, a.reverse)

/-- Parse a userinfo component text into decoded username/password, as Go's
`url.Parse` does (split at the first colon, percent-decode each part;
decoding failure makes the whole URL unparsable). -/
def parseUserinfo (l : List Char) : Option Userinfo :=
  match breakAtElem ':' l with
  | none =>
    match unescapeUserinfoChars l with
    | none => none
    | some u => some ⟨String.mk u, none⟩
  | some (u, p) =>
    match unescapeUserinfoChars u, unescapeUserinfoChars p with
    | some du, some dp => some ⟨String.mk du, some (String.mk dp)⟩
    | _, _ => none

/-- Model of Go's `net/url.Parse`, restricted to the shapes the proxy
configuration uses: control bytes are rejected; an input without `"://"`
parses as an opaque remainder; otherwise the authority is split into
optional userinfo (at the last `'@'`) and host, and everything from the
first `'/'` on is kept as the remainder. -/
def urlParse (s : String) : Option URL :=
  if s.data.any (fun c => c.toNat < 32 ∨ c.toNat = 127) then none
  else
    match splitSchemeSep s.data with
    | none => some ⟨"", none, "", s⟩
    | some (sch, after) =>
      let auth := after.takeWhile (fun c => c ≠ '/')
      let rest := after.dropWhile (fun c => c ≠ '/')
      match breakAtLast '@' auth with
      | none => some ⟨String.mk sch, none, String.mk auth, String.mk rest⟩
      | some (ui, hostPart) =>
        match parseUserinfo ui with
        | none => none
        | some u => some ⟨String.mk sch, some u, String.mk hostPart, String.mk rest⟩

/-- Go's `url.URL.String`, restricted to the components of our model. -/
def urlString (u : URL) : String :=
  (if u.scheme ≠ "" then u.scheme ++ "://" else "") ++
    (match u.user with
     | some ui => userinfoString ui ++ "@"
     | none => "") ++ u.host ++ u.rest

/-- Result of running a piece of Go code that can panic: either a normal
value or a runtime panic (`crash`). -/
inductive GoResult (α : Type) where
  | crash
  | ok (val : α)
deriving DecidableEq, Repr

/-- HTTP header collection, modelling Go's `http.Header`
(`map[string][]string`) as an association list. -/
def Headers : Type := List (String × List String)

instance : DecidableEq Headers := by
  unfold Headers
  infer_instance

instance : Repr Headers := by
  unfold Headers
  infer_instance

/-- Go's `Header.Del`: remove every binding of the key. -/
def headerDel (h : Headers) (k : String) : Headers :=
  List.filter (fun e => e.1 ≠ k) h

/-- Go's `Header.Set`: replace the key's value slice with a single value. -/
def headerSet (h : Headers) (k v : String) : Headers :=
  (k, [v]) :: headerDel h k

/-- The value slice stored under a key, `none` when the key is absent. -/
def headerValues (h : Headers) (k : String) : Option (List String) :=
  match List.find? (fun e => e.1 = k) h with
  | none => none
  | some e => some e.2

/-- The `"Proxy-Authorization"` header name (`ProxyAuthorizatonHeader`
constant in the source, spelling included). -/
def ProxyAuthorizatonHeader : String := "Proxy-Authorization"

/-- The `"Proxy-Authenticate"` header name. -/
def ProxyAuthenticateHeader : String := "Proxy-Authenticate"

/-- The slice of the `Configuration` structure that the resolver, dialer and
bind-address check read: `rules` (domain suffix → proxy alias), `proxies`
(alias → proxy URL), the global forward proxy URL and the local bind IP.
Go maps become association lists with unique keys. -/
structure Configuration where
  Rules : List (String × String)
  Proxies : List (String × String)
  ForwardProxyURL : String
  BindIP : String
deriving DecidableEq, Repr

/-- Go map lookup returning presence (`m[k]`, `ok` form). -/
def goLookup (m : List (String × String)) (k : String) : Option String :=
  match List.find? (fun e => e.1 = k) m with
  | none => none
  | some e => some e.2

/-- Go's `strings.HasSuffix(s, suffix)`. -/
def goHasSuffix (s suffix : String) : Bool :=
  suffix.data.isSuffixOf s.data

/-- The value `conf.Rules[domain]`, with the Go zero value `""` when the
key is absent. -/
def aliasOf (conf : Configuration) (domain : String) : String :=
  (goLookup conf.Rules domain).getD ""

/-- Loop state of `findMatchingProxy`: the remembered generic-rule proxy,
the most specific suffix match so far, and its length (initially `-1`). -/
structure ResolveState where
  genericProxy : Option URL
  mostSpecificMatch : Option URL
  mostSpecificLength : Int
deriving DecidableEq, Repr

/-- One iteration of the `findMatchingProxy` loop body for a rule key
`domain`: skip when the alias has no entry in `Proxies`; remember the
parse of the proxy URL as the generic proxy when the key is `"."`; take it
as the new most specific match when the key is a strictly longer suffix of
the host than any match so far. -/
def resolveStep (conf : Configuration) (host : String) (st : ResolveState) (domain : String) :
    ResolveState :=
  match goLookup conf.Proxies (aliasOf conf domain) with
  | none => st
  | some proxyURL =>
    let parsedURL := urlParse proxyURL
    if domain = "." then { st with genericProxy := parsedURL }
    else if goHasSuffix host domain ∧ (domain.length : Int) > st.mostSpecificLength then
      { st with mostSpecificMatch := parsedURL, mostSpecificLength := (domain.length : Int) }
    else st

/-- Go's `findMatchingProxy(host, conf)`, parameterised by the order `keys`
in which the rule keys are scanned.  The Go code obtains `keys` by reading
`conf.Rules`' keys out of the map (arbitrary iteration order) and sorting
them by descending length with the non-stable `sort.Slice`; any such list
is a permutation of the rule keys.  After the scan: a most specific match
wins; otherwise a non-empty global `ForwardProxyURL` is parsed and
returned (overwriting the remembered generic proxy); otherwise the generic
`"."` proxy (possibly `nil`) is returned. -/
def findMatchingProxyWith (keys : List String) (host : String) (conf : Configuration) :
    Option URL :=
  let st := keys.foldl (resolveStep conf host) ⟨none, none, -1⟩
  if st.mostSpecificMatch.isSome then st.mostSpecificMatch
  else if conf.ForwardProxyURL.length > 0 then urlParse conf.ForwardProxyURL
  else st.genericProxy

/-- Go's `findMatchingProxyString`: call `findMatchingProxy` via
`findMatchingForwardProxyURL` and take `proxyURL.String()`.  Calling
`String()` on a nil `*url.URL` dereferences nil and panics, which the
model records as `crash`. -/
def findMatchingProxyStringWith (keys : List String) (host : String) (conf : Configuration) :
    GoResult String :=
  match findMatchingProxyWith keys host conf with
  | none => GoResult.crash
  | some u => GoResult.ok (urlString u)

/-- Outcome of the `ConnectDialWithReq` closure installed by
`setForwardProxy`: dial the destination directly, or tunnel through the
named upstream proxy. -/
inductive DialDecision where
  | direct
  | viaProxy (proxyURL : String)
deriving DecidableEq, Repr

/-- The routing decision of the `ConnectDialWithReq` closure: compute
`findMatchingProxyString`, dial directly when it is the empty string, and
otherwise tunnel through the returned proxy URL string. -/
def connectDialDecision (keys : List String) (host : String) (conf : Configuration) :
    GoResult DialDecision :=
  match findMatchingProxyStringWith keys host conf with
  | GoResult.crash => GoResult.crash
  | GoResult.ok s =>
    if s = "" then GoResult.ok DialDecision.direct
    else GoResult.ok (DialDecision.viaProxy s)

/-- The `ProxyHealth` record: health flag, failure counter and threshold. -/
structure ProxyHealth where
  Healthy : Bool
  FailureCount : Int
  FailureLimit : Int
deriving DecidableEq, Repr

/-- Go's `(*ProxyHealth).RecordFailure`: increment the counter, and mark
unhealthy once it reaches the limit. -/
def RecordFailure (p : ProxyHealth) : ProxyHealth :=
  let fc := p.FailureCount + 1
  { p with
    FailureCount := fc
    Healthy := if fc ≥ p.FailureLimit then false else p.Healthy }

/-- Go's `(*ProxyHealth).RecordSuccess`: mark healthy and reset the
counter. -/
def RecordSuccess (p : ProxyHealth) : ProxyHealth :=
  { p with Healthy := true, FailureCount := 0 }

/-- Go's `(*ProxyHealth).IsHealthy`. -/
def IsHealthy (p : ProxyHealth) : Bool :=
  p.Healthy

/-- The three operations callable on a `ProxyHealth` (the mutex serialises
them, so an interleaving is a sequence). -/
inductive HealthOp where
  | recordFailure
  | recordSuccess
  | isHealthy
deriving DecidableEq, Repr

/-- State transition of one serialised health-tracker call (`IsHealthy`
reads without mutating). -/
def healthStep (p : ProxyHealth) : HealthOp → ProxyHealth
  | HealthOp.recordFailure => RecordFailure p
  | HealthOp.recordSuccess => RecordSuccess p
  | HealthOp.isHealthy => p

/-- Run a sequence of serialised health-tracker calls. -/
def runHealthOps (p : ProxyHealth) (ops : List HealthOp) : ProxyHealth :=
  ops.foldl healthStep p

/-- Positions (0-based character indices) of a character in a list. -/
def charPositions (target : Char) : List Char → Nat → List Nat
  | [], _ => []
  | c :: rest, i =>
    if c = target then i :: charPositions target rest (i + 1)
    else charPositions target rest (i + 1)

/-- Pair up double-quote positions as the non-greedy regexp `"(.*?)"` does:
the first quote opens a span that the next quote closes, and so on.  Each
span is returned as the capture-group index pair (position after the
opening quote, position of the closing quote), matching Go's
`FindAllStringSubmatchIndex` group indices. -/
def pairQuoteSpans : List Nat → List (Nat × Nat)
  | a :: b :: rest => (a + 1, b) :: pairQuoteSpans rest
  | _ => []

/-- The capture-group spans of `"(.*?)"` over the header remainder. -/
def quoteSpansOf (h : List Char) : List (Nat × Nat) :=
  pairQuoteSpans (charPositions '"' h 0)

/-- The comma positions of the header remainder. -/
def commaPositionsOf (h : List Char) : List Nat :=
  charPositions ',' h 0

/-- Whether a comma position falls inside some quoted span, by the source's
test `commaIndex >= quoteIndices[2] && commaIndex <= quoteIndices[3]`. -/
def insideQuotedSpan (h : List Char) (i : Nat) : Bool :=
  (quoteSpansOf h).any (fun q => q.1 ≤ i ∧ i ≤ q.2)

/-- The separator commas: every comma that does not fall inside a quoted
span. -/
def separateCommasOf (h : List Char) : List Nat :=
  (commaPositionsOf h).filter (fun i => ! insideQuotedSpan h i)

/-- The slice `h[s:e]` of a character list. -/
def sliceOf (h : List Char) (s e : Nat) : List Char :=
  (h.drop s).take (e - s)

/-- Cut the header remainder at the separator-comma positions, trimming
spaces from each piece, exactly as the token loop of `getDigestAuthData`
does (`s` is the running start index). -/
def tokensFrom (h : List Char) : List Nat → Nat → List (List Char)
  | [], s => [trimEnds (fun c => c = ' ') (h.drop s)]
  | e :: rest, s =>
    trimEnds (fun c => c = ' ') (sliceOf h s e) :: tokensFrom h rest (e + 1)

/-- Split a token at the first `'='` (Go's `strings.SplitN(token, "=", 2)`),
then store key and quote-trimmed value.  A token without `'='` makes
`kv[1]` an out-of-range index: Go panics, modelled by `crash`. -/
def insertToken (m : List (String × String)) (token : List Char) :
    GoResult (List (String × String)) :=
  match breakAtElem '=' token with
  | none => GoResult.crash
  | some (k, v) =>
    GoResult.ok ((String.mk k, String.mk (trimEnds (fun c => c = '"') v)) ::
      List.filter (fun e => e.1 ≠ String.mk k) m)

/-- Fold the tokens into the parameter map, propagating a panic. -/
def insertTokens (m : List (String × String)) : List (List Char) →
    GoResult (List (String × String))
  | [] => GoResult.ok m
  | t :: rest =>
    match insertToken m t with
    | GoResult.crash => GoResult.crash
    | GoResult.ok m2 => insertTokens m2 rest

/-- The `DigestAuthData` record filled by the parser.  Absent keys leave the
Go zero value `""`. -/
structure DigestAuthData where
  user : String
  realm : String
  nonce : String
  uri : String
  response : String
  qop : String
  nc : String
  cnonce : String
  method : String
deriving DecidableEq, Repr

/-- Populate a `DigestAuthData` from the parameter map and the request
method, as the tail of `getDigestAuthData` does. -/
def digestDataOfMap (m : List (String × String)) (method : String) : DigestAuthData where
  user := (goLookup m "username").getD ""
  realm := (goLookup m "realm").getD ""
  nonce := (goLookup m "nonce").getD ""
  uri := (goLookup m "uri").getD ""
  response := (goLookup m "response").getD ""
  qop := (goLookup m "qop").getD ""
  nc := (goLookup m "nc").getD ""
  cnonce := (goLookup m "cnonce").getD ""
  method := method

/-- Go's `getDigestAuthData`, as a function of the request method and the
raw `Proxy-Authorization` header value.  Returns `ok none` (Go `nil`) when
the value does not split into exactly two space-separated parts with
scheme `"Digest"`; panics (`crash`) when a parameter token has no `'='`;
otherwise returns the populated data. -/
def getDigestAuthData (method hdrVal : String) : GoResult (Option DigestAuthData) :=
  let authHeader := goSplitN2 hdrVal ' '
  if authHeader.length ≠ 2 ∨ authHeader.headD "" ≠ "Digest" then GoResult.ok none
  else
    let h := (authHeader.getD 1 "").data
    match insertTokens [] (tokensFrom h (separateCommasOf h) 0) with
    | GoResult.crash => GoResult.crash
    | GoResult.ok m => GoResult.ok (some (digestDataOfMap m method))

/-- The `BasicAuthData` record (decoded user and password bytes; Go strings
are byte slices, so the split happens on bytes). -/
structure BasicAuthData where
  user : List Nat
  password : List Nat
deriving DecidableEq, Repr

/-- Go's `getBasicAuthData`, as a function of the raw header value: require
two space-separated parts with scheme `"Basic"`, base64-decode the
payload, and split the decoded bytes at the first `':'` (byte 58); any
failure gives Go `nil` (`none`). -/
def getBasicAuthData (hdrVal : String) : Option BasicAuthData :=
  let authHeader := goSplitN2 hdrVal ' '
  if authHeader.length ≠ 2 ∨ authHeader.headD "" ≠ "Basic" then none
  else
    match base64Decode (authHeader.getD 1 "") with
    | none => none
    | some rawUserPassword =>
      match breakAtElem 58 rawUserPassword with
      | none => none
      | some (u, p) => some ⟨u, p⟩

/-- Digest-actor operation codes (`iota` constants of the source). -/
def validateUser : Nat := 0

/-- The `getNonce` digest-actor operation code. -/
def getNonce : Nat := 1

/-- The `maintPing` digest-actor operation code. -/
def maintPing : Nat := 2

/-- A digest-actor reply: payload string and status code. -/
structure DigestAuthResponse where
  data : String
  status : Nat
deriving DecidableEq, Repr

/-- The digest-actor call interface (`DigestAuthFunc`). -/
def DigestAuthFunc : Type := Option DigestAuthData → Nat → DigestAuthResponse

/-- The parts of Go's `http.Response` that the 407 constructors set. -/
structure Response where
  StatusCode : Nat
  ProtoMajor : Nat
  ProtoMinor : Nat
  Header : Headers
  Body : String
  ContentLength : Int
deriving DecidableEq, Repr

/-- The fixed 407 message (`unauthorizedMsg`). -/
def unauthorizedMsg : String := "407 Proxy Authentication Required"

/-- Go's `basicUnauthorized(req, realm)`. -/
def basicUnauthorized (realm : String) : Response where
  StatusCode := 407
  ProtoMajor := 1
  ProtoMinor := 1
  Header := [(ProxyAuthenticateHeader, ["Basic realm=\"" ++ realm ++ "\""])]
  Body := unauthorizedMsg
  ContentLength := ((strBytes unauthorizedMsg).length : Int)

/-- Go's `digestUnauthorized(req, realm, authFunc)`: obtain a fresh nonce
from the digest actor with the `getNonce` operation, then build the 407
challenge. -/
def digestUnauthorized (realm : String) (authFunc : DigestAuthFunc) : Response :=
  let authResult := authFunc none getNonce
  let nonce := authResult.data
  { StatusCode := 407
    ProtoMajor := 1
    ProtoMinor := 1
    Header := [(ProxyAuthenticateHeader,
      ["Digest realm=\"" ++ realm ++ "\", qop=auth, nonce=\"" ++ nonce ++ "\""])]
    Body := unauthorizedMsg
    ContentLength := ((strBytes unauthorizedMsg).length : Int) }

/-- Header rewriting done by `connectDialWrapper` on a CONNECT request:
when the upstream URL carries a non-empty userinfo, the handler first
deletes any `Proxy-Authorization` header and then, for a non-empty
username, sets a fresh Basic credential from the URL-decoded
(`url.QueryUnescape`) userinfo; with no (or empty) userinfo the wrapper
installs no handler and the headers pass through unchanged.  A failed
unescape leaves `creds` at the Go zero value `""` (the error is only
logged). -/
def connectDialHeaderEffect (u : URL) (hdr : Headers) : Headers :=
  if (urlUserString u).length > 0 then
    let afterDel := headerDel hdr ProxyAuthorizatonHeader
    if (urlUsername u).length > 0 then
      let creds := (queryUnescapeB (strBytes (urlUserString u))).getD []
      headerSet afterDel ProxyAuthorizatonHeader ("Basic " ++ base64Encode creds)
    else afterDel
  else hdr

/-- Parse one dotted-decimal IPv4 field as Go's `net.ParseIP` does: one to
three decimal digits, no leading zero, value at most 255. -/
def parseIPv4Field (l : List Char) : Option Nat :=
  if l.length = 0 ∨ l.length > 3 then none
  else if ¬ l.all (fun c => '0' ≤ c ∧ c ≤ '9') then none
  else if l.length > 1 ∧ l.headD '0' = '0' then none
  else
    let v := l.foldl (fun acc c => acc * 10 + (c.toNat - 48)) 0
    if v ≤ 255 then some v else none

/-- Dotted-decimal IPv4 parsing: exactly four valid fields, giving a 4-byte
address. -/
def parseIPv4 (s : List Char) : Option (List Nat) :=
  let parts := s.splitOn '.'
  if parts.length ≠ 4 then none
  else
    match parts.map parseIPv4Field with
    | [some a, some b, some c, some d] => some [a, b, c, d]
    | _ => none

/-- Parse a 16-bit hexadecimal IPv6 group (one to four hex digits). -/
def parseHexGroup (l : List Char) : Option Nat :=
  if l.length = 0 ∨ l.length > 4 then none
  else
    l.foldl
      (fun acc c =>
        match acc, hexByteVal c.toNat with
        | some a, some v => some (a * 16 + v)
        | _, _ => none)
      (some 0)

/-- Split a character list at the first `"::"`. -/
def splitDoubleColon : List Char → Option (List Char × List Char)
  | [] => none
  | ':' :: ':' :: rest => some ([], rest)
  | c :: rest => (splitDoubleColon rest).map (fun p => (c :: p.1, p.2))

/-- Bytes of a colon-separated run of IPv6 groups.  When `v4Tail` is set the
final group may be an embedded dotted-decimal IPv4 address (as at the end
of a full address). -/
def parseGroupRun (l : List Char) (v4Tail : Bool) : Option (List Nat) :=
  if l.length = 0 then some []
  else
    let parts := l.splitOn ':'
    let rec build : List (List Char) → Option (List Nat)
      | [] => some []
      | [last] =>
        if v4Tail ∧ last.contains '.' then parseIPv4 last
        else
          match parseHexGroup last with
          | some g => some [g / 256, g % 256]
          | none => none
      | p :: rest =>
        match parseHexGroup p, build rest with
        | some g, some bs => some (g / 256 :: g % 256 :: bs)
        | _, _ => none
    build parts

/-- IPv6 textual parsing in the style of Go's `net.ParseIP`: an optional
single `"::"` zero run, 16-bit hexadecimal groups otherwise, and an
optional embedded IPv4 tail.  The result is the 16-byte address. -/
def parseIPv6 (s : List Char) : Option (List Nat) :=
  match splitDoubleColon s with
  | none =>
    match parseGroupRun s true with
    | some bs => if bs.length = 16 then some bs else none
    | none => none
  | some (lft, rgt) =>
    match parseGroupRun lft false, parseGroupRun rgt true with
    | some lb, some rb =>
      if lb.length + rb.length ≤ 14 then
        some (lb ++ List.replicate (16 - lb.length - rb.length) 0 ++ rb)
      else none
    | _, _ => none

/-- Go's `net.ParseIP`: dispatch on the first `'.'` or `':'` encountered;
anything else is unparsable (`nil`). -/
def goParseIP (s : String) : Option (List Nat) :=
  match s.data.find? (fun c => c = '.' ∨ c = ':') with
  | some '.' => parseIPv4 s.data
  | some ':' => parseIPv6 s.data
  | _ => none

/-- Go's `IP.To4`: a 4-byte address itself, or the tail of an IPv4-mapped
16-byte address; `nil` otherwise. -/
def ipTo4 (ip : List Nat) : Option (List Nat) :=
  if ip.length = 4 then some ip
  else if ip.length = 16 ∧ ip.take 10 = List.replicate 10 0 ∧
      ip.getD 10 0 = 255 ∧ ip.getD 11 0 = 255 then
    some (ip.drop 12)
  else none

/-- Go's `IP.To16`: expand a 4-byte address to its IPv4-mapped 16-byte form,
keep a 16-byte address, `nil` otherwise. -/
def ipTo16 (ip : List Nat) : Option (List Nat) :=
  if ip.length = 4 then some ([0, 0, 0, 0, 0, 0, 0, 0, 0, 0, 255, 255] ++ ip)
  else if ip.length = 16 then some ip
  else none

/-- Go's `checkBindAddressOK(conf)`: with a non-empty `BindIP`, a parseable
IPv4 address yields `(true, ip ++ ":0", nil)`, any other parseable address
yields the bracketed IPv6 form; an unparsable `BindIP` (and an empty one)
falls through to `(false, "", nil)`.  The error branch is only reachable
when a parsed address is neither 4 nor 16 bytes long. -/
def checkBindAddressOK (conf : Configuration) : Bool × String × Option String :=
  if conf.BindIP ≠ "" then
    match goParseIP conf.BindIP with
    | some ip =>
      if (ipTo4 ip).isSome then (true, conf.BindIP ++ ":0", none)
      else if (ipTo16 ip).isSome then (true, "[" ++ conf.BindIP ++ "]:0", none)
      else (false, "",
        some ("couldn't use \"" ++ conf.BindIP ++ "\" as outgoing request address"))
    | none => (false, "", none)
  else (false, "", none)

/-- C4: health-tracker state machine.  `RecordFailure` increments the
counter and clears `Healthy` exactly when the incremented counter reaches
`FailureLimit` (leaving it unchanged otherwise); `RecordSuccess`
unconditionally resets the counter and sets `Healthy`; in any serialised
call sequence `Healthy` only transitions from false to true through
`RecordSuccess`; and with `FailureLimit = 3` three consecutive failures
make the tracker unhealthy while one subsequent success restores health
and a zero counter. -/
theorem healthTracker_invariant :
    (∀ p : ProxyHealth, RecordFailure p =
      { p with
        FailureCount := p.FailureCount + 1
        Healthy := if p.FailureCount + 1 ≥ p.FailureLimit then false else p.Healthy }) ∧
    (∀ p : ProxyHealth, RecordSuccess p = { p with FailureCount := 0, Healthy := true }) ∧
    (∀ (p : ProxyHealth) (op : HealthOp),
      IsHealthy p = false → IsHealthy (healthStep p op) = true → op = HealthOp.recordSuccess) ∧
    (∀ b : Bool,
      IsHealthy (runHealthOps ⟨b, 0, 3⟩
        [HealthOp.recordFailure, HealthOp.recordFailure, HealthOp.recordFailure]) = false ∧
      IsHealthy (runHealthOps ⟨b, 0, 3⟩
        [HealthOp.recordFailure, HealthOp.recordFailure, HealthOp.recordFailure,
          HealthOp.recordSuccess]) = true ∧
      (runHealthOps ⟨b, 0, 3⟩
        [HealthOp.recordFailure, HealthOp.recordFailure, HealthOp.recordFailure,
          HealthOp.recordSuccess]).FailureCount = 0) := by
  refine ⟨fun p => rfl, fun p => rfl, ?_, ?_⟩
  · intro p op h1 h2
    cases op with
    | recordFailure =>
      exfalso
      simp only [healthStep, RecordFailure, IsHealthy] at h1 h2
      by_cases hc : p.FailureCount + 1 ≥ p.FailureLimit
      · simp [hc] at h2
      · simp [hc] at h2
        rw [h1] at h2
        exact Bool.false_ne_true h2
    | recordSuccess => rfl
    | isHealthy =>
      simp only [healthStep, IsHealthy] at h1 h2
      rw [h1] at h2
      exact absurd h2 Bool.false_ne_true
  · intro b
    cases b <;> exact ⟨rfl, rfl, rfl⟩

/-- Witness for C4 at concrete states: the false-to-true transition clause
applied at an unhealthy tracker receiving a success, and the
three-failures scenario at a fresh healthy tracker. -/
theorem healthTracker_invariant_witness :
    HealthOp.recordSuccess = HealthOp.recordSuccess ∧
    IsHealthy (runHealthOps ⟨true, 0, 3⟩
      [HealthOp.recordFailure, HealthOp.recordFailure, HealthOp.recordFailure]) = false :=
  ⟨healthTracker_invariant.2.2.1 ⟨false, 3, 3⟩ HealthOp.recordSuccess rfl rfl,
    (healthTracker_invariant.2.2.2 true).1⟩

/-- C7: both 407 challenge constructors return status code 407, the fixed
body `"407 Proxy Authentication Required"`, and a `ContentLength` equal to
that body's byte length (33, independent of the realm); the digest variant
carries a `Proxy-Authenticate` header of the exact form
`Digest realm="<realm>", qop=auth, nonce="<nonce>"` whose nonce is the
payload of the digest actor's reply to the `getNonce` operation. -/
theorem unauthorized_407_shape :
    ∀ (realm : String) (authFunc : DigestAuthFunc),
      (digestUnauthorized realm authFunc).StatusCode = 407 ∧
      (digestUnauthorized realm authFunc).Body = unauthorizedMsg ∧
      (digestUnauthorized realm authFunc).ContentLength =
        ((strBytes unauthorizedMsg).length : Int) ∧
      (digestUnauthorized realm authFunc).ContentLength = 33 ∧
      headerValues (digestUnauthorized realm authFunc).Header ProxyAuthenticateHeader =
        some ["Digest realm=\"" ++ realm ++ "\", qop=auth, nonce=\"" ++
          (authFunc none getNonce).data ++ "\""] ∧
      (basicUnauthorized realm).StatusCode = 407 ∧
      (basicUnauthorized realm).Body = unauthorizedMsg ∧
      (basicUnauthorized realm).ContentLength = ((strBytes unauthorizedMsg).length : Int) ∧
      (basicUnauthorized realm).ContentLength = 33 := by
  intro realm authFunc
  have hlen : ((strBytes unauthorizedMsg).length : Int) = 33 := by decide
  exact ⟨rfl, rfl, rfl, hlen, rfl, rfl, rfl, rfl, hlen⟩

/-- C2 (code bug): digest auth-header parsing is not total.  On the header
value `"Digest foo"` the parameter token `"foo"` contains no `'='`, so
`strings.SplitN(token, "=", 2)` yields a single element and the source's
`kv[1]` indexes out of range: the handler panics instead of failing
closed. -/
theorem digestParse_malformed_token_panics :
    getDigestAuthData "GET" "Digest foo" = GoResult.crash := by
  rfl

/-- C3: digest tokenization does not split on commas inside quoted values.
The example header parses with `realm` equal to the literal `r,x` and
`uri` equal to `/a,b`, the remaining recognised keys populated from the
header and the method from the request; and in general a comma position
survives as a separator iff it does not fall inside a quoted span. -/
theorem digestParse_quoted_commas :
    getDigestAuthData "GET"
        "Digest username=\"bob\", realm=\"r,x\", nonce=\"n1\", uri=\"/a,b\", response=\"abc\", qop=auth, nc=00000001, cnonce=\"c1\"" =
      GoResult.ok (some ⟨"bob", "r,x", "n1", "/a,b", "abc", "auth", "00000001", "c1", "GET"⟩) ∧
    ∀ (h : List Char) (i : Nat),
      i ∈ separateCommasOf h ↔ i ∈ commaPositionsOf h ∧ insideQuotedSpan h i = false := by
  constructor
  · rfl
  · intro h i
    simp [separateCommasOf, List.mem_filter]

/-- C5: when the routing tables resolve a host to no proxy at all
(`findMatchingProxy` returns Go `nil`), `findMatchingProxyString` calls
`String()` on the nil `*url.URL` and panics, so the `ConnectDialWithReq`
closure crashes before its empty-string direct-dial check can run. -/
theorem connectDial_nil_deref :
    ∀ (keys : List String) (host : String) (conf : Configuration),
      conf.Rules ≠ [] ∨ conf.ForwardProxyURL ≠ "" →
      findMatchingProxyWith keys host conf = none →
      findMatchingProxyStringWith keys host conf = GoResult.crash ∧
      connectDialDecision keys host conf = GoResult.crash ∧
      connectDialDecision keys host conf ≠ GoResult.ok DialDecision.direct := by
  intro keys host conf _ hnone
  have h1 : findMatchingProxyStringWith keys host conf = GoResult.crash := by
    simp [findMatchingProxyStringWith, hnone]
  have h2 : connectDialDecision keys host conf = GoResult.crash := by
    simp [connectDialDecision, h1]
  exact ⟨h1, h2, by simp [h2]⟩

/-- Witness for C5: a configuration with one non-generic rule, no `"."`
rule and no global forward proxy, and a host matching no rule. -/
theorem connectDial_nil_deref_witness :
    connectDialDecision ["example.com"] "other.org"
      ⟨[("example.com", "A")], [("A", "http://p1")], "", ""⟩ = GoResult.crash :=
  (connectDial_nil_deref ["example.com"] "other.org"
    ⟨[("example.com", "A")], [("A", "http://p1")], "", ""⟩
    (Or.inl (by decide)) (by decide)).2.1

/-- C6 counterexample: the claim says an unparsable `BindIP` surfaces a
configuration error, but `checkBindAddressOK` returns `(false, "", nil)`
for the unparsable `"bogus"`: no error is reported and the bind is
silently skipped. -/
theorem checkBindAddress_counterexample :
    goParseIP "bogus" = none ∧
    checkBindAddressOK ⟨[], [], "", "bogus"⟩ = (false, "", none) := by
  exact ⟨rfl, rfl⟩

/-- C6 as amended: an unparsable non-empty `BindIP` yields
`(false, "", nil)` — no address, and no error either (the bind is
silently skipped); a parseable IPv4 address yields the local endpoint
`"<ip>:0"` and a parseable non-IPv4 address the bracketed `"[<ip>]:0"`,
both with no error. -/
theorem checkBindAddress_amended :
    ∀ conf : Configuration, conf.BindIP ≠ "" →
      (goParseIP conf.BindIP = none → checkBindAddressOK conf = (false, "", none)) ∧
      (∀ ip, goParseIP conf.BindIP = some ip → (ipTo4 ip).isSome →
        checkBindAddressOK conf = (true, conf.BindIP ++ ":0", none)) ∧
      (∀ ip, goParseIP conf.BindIP = some ip → ipTo4 ip = none → (ipTo16 ip).isSome →
        checkBindAddressOK conf = (true, "[" ++ conf.BindIP ++ "]:0", none)) := by
  intro conf hne
  refine ⟨?_, ?_, ?_⟩
  · intro hp
    simp [checkBindAddressOK, hne, hp]
  · intro ip hp h4
    simp [checkBindAddressOK, hne, hp, h4]
  · intro ip hp h4 h16
    simp [checkBindAddressOK, hne, hp, h4, h16]

/-- Witness for C6 at concrete bind addresses: an unparsable address, a
parseable IPv4 address and a parseable IPv6 address. -/
theorem checkBindAddress_amended_witness :
    checkBindAddressOK ⟨[], [], "", "x:y"⟩ = (false, "", none) ∧
    checkBindAddressOK ⟨[], [], "", "127.0.0.1"⟩ = (true, "127.0.0.1:0", none) ∧
    checkBindAddressOK ⟨[], [], "", "::1"⟩ = (true, "[::1]:0", none) :=
  ⟨(checkBindAddress_amended ⟨[], [], "", "x:y"⟩ (by decide)).1 (by decide),
    (checkBindAddress_amended ⟨[], [], "", "127.0.0.1"⟩ (by decide)).2.1
      [127, 0, 0, 1] (by decide) (by decide),
    (checkBindAddress_amended ⟨[], [], "", "::1"⟩ (by decide)).2.2
      [0, 0, 0, 0, 0, 0, 0, 0, 0, 0, 0, 0, 0, 0, 0, 1] (by decide) (by decide) (by decide)⟩

/-- The proxy URL the `"."` generic rule resolves to: the parse of the
aliased proxy entry, or Go `nil` when the alias has no entry. -/
def dotProxyValue (conf : Configuration) : Option URL :=
  match goLookup conf.Proxies (aliasOf conf ".") with
  | none => none
  | some pu => urlParse pu

/-- Helper for C1: when no non-`"."` key both has a proxy entry and
suffix-matches the host, the resolver loop leaves the most-specific match
untouched and only ever writes the generic proxy (from the `"."` rule). -/
theorem foldResolve_no_suffix (conf : Configuration) (host : String) :
    ∀ (keys : List String),
      (∀ d ∈ keys, d ≠ "." →
        (goLookup conf.Proxies (aliasOf conf d)).isSome = true →
        goHasSuffix host d = false) →
      ∀ st : ResolveState,
        keys.foldl (resolveStep conf host) st =
          (if "." ∈ keys ∧ (goLookup conf.Proxies (aliasOf conf ".")).isSome = true then
            { st with genericProxy := dotProxyValue conf }
          else st) := by
  intro keys
  induction keys with
  | nil =>
    intro _ st
    simp
  | cons d ks ih =>
    intro hnomatch st
    have hks : ∀ d2 ∈ ks, d2 ≠ "." →
        (goLookup conf.Proxies (aliasOf conf d2)).isSome = true →
        goHasSuffix host d2 = false :=
      fun d2 hd2 => hnomatch d2 (List.mem_cons_of_mem _ hd2)
    by_cases hd : d = "."
    · subst hd
      cases hlk : goLookup conf.Proxies (aliasOf conf ".") with
      | some pu =>
        have hstep : resolveStep conf host st "." =
            { st with genericProxy := dotProxyValue conf } := by
          simp [resolveStep, hlk, dotProxyValue]
        rw [List.foldl_cons, hstep, ih hks]
        by_cases hmem : "." ∈ ks
        · simp [hmem, hlk]
        · simp [hmem, hlk]
      | none =>
        have hstep : resolveStep conf host st "." = st := by
          simp [resolveStep, hlk]
        rw [List.foldl_cons, hstep, ih hks]
        simp [hlk]
    · have hstep : resolveStep conf host st d = st := by
        cases hlk : goLookup conf.Proxies (aliasOf conf d) with
        | none => simp [resolveStep, hlk]
        | some pu =>
          have hsuf : goHasSuffix host d = false :=
            hnomatch d (List.mem_cons_self _ _) hd (by simp [hlk])
          simp [resolveStep, hlk, hd, hsuf]
      rw [List.foldl_cons, hstep, ih hks]
      have hiff : ("." ∈ d :: ks) ↔ ("." ∈ ks) := by
        have hne : ("." : String) ≠ d := fun h => hd h.symm
        simp [List.mem_cons, hne]
      by_cases hmem : "." ∈ ks
      · simp [hiff, hmem]
      · simp [hiff, hmem]

/-- C1 as amended: for a hostname with no matching non-`"."` suffix rule,
`findMatchingProxy` returns the parse of the global `forwardProxyURL`
whenever that is non-empty — the global URL wins over a configured `"."`
rule — and only with an empty `forwardProxyURL` does it fall back to the
`"."` rule's proxy; with neither it returns Go `nil` (dial directly). -/
theorem findMatchingProxy_fallback_order :
    ∀ (keys : List String) (host : String) (conf : Configuration),
      (∀ d ∈ keys, d ≠ "." →
        (goLookup conf.Proxies (aliasOf conf d)).isSome = true →
        goHasSuffix host d = false) →
      findMatchingProxyWith keys host conf =
        (if conf.ForwardProxyURL.length > 0 then urlParse conf.ForwardProxyURL
        else if "." ∈ keys then dotProxyValue conf
        else none) := by
  intro keys host conf hnomatch
  simp only [findMatchingProxyWith]
  rw [foldResolve_no_suffix conf host keys hnomatch]
  by_cases hc : "." ∈ keys ∧ (goLookup conf.Proxies (aliasOf conf ".")).isSome = true
  · rw [if_pos hc]
    simp only [Option.isSome_none, Bool.false_eq_true, if_false]
    by_cases hf : conf.ForwardProxyURL.length > 0
    · simp [hf]
    · simp [hf, hc.1]
  · rw [if_neg hc]
    simp only [Option.isSome_none, Bool.false_eq_true, if_false]
    by_cases hf : conf.ForwardProxyURL.length > 0
    · simp [hf]
    · by_cases hmem : "." ∈ keys
      · have hlk : (goLookup conf.Proxies (aliasOf conf ".")).isSome = false := by
          by_contra hh
          exact hc ⟨hmem, by simpa [Option.isSome_iff_ne_none] using hh⟩
        have hdot : dotProxyValue conf = none := by
          cases h : goLookup conf.Proxies (aliasOf conf ".") with
          | none => simp [dotProxyValue, h]
          | some pu => rw [h] at hlk; simp at hlk
        simp [hf, hmem, hdot]
      · simp [hf, hmem]

/-- Witness for the amended C1: a lone `"."` rule with empty
`forwardProxyURL` resolves a non-matching host to the `"."` rule's
proxy. -/
theorem findMatchingProxy_fallback_order_witness :
    findMatchingProxyWith ["."] "other.org"
      ⟨[(".", "B")], [("B", "http://p2")], "", ""⟩ = urlParse "http://p2" := by
  rw [findMatchingProxy_fallback_order ["."] "other.org"
    ⟨[(".", "B")], [("B", "http://p2")], "", ""⟩ (by decide)]
  rfl

/-- C1 counterexample: with both a `"."` rule (to `http://p2`) and a
non-empty global `forwardProxyURL` (`http://p3`) configured, the claim
demands the `"."` rule's proxy, but the code returns the parse of the
global URL: the assignment `genericProxy, _ = url.Parse(conf.ForwardProxyURL)`
overwrites the remembered `"."` proxy. -/
theorem findMatchingProxy_counterexample :
    findMatchingProxyWith ["."] "other.org"
      ⟨[(".", "B")], [("B", "http://p2")], "http://p3", ""⟩ = urlParse "http://p3" ∧
    urlParse "http://p3" ≠ urlParse "http://p2" ∧
    urlParse "http://p3" ≠ (none : Option URL) := by
  exact ⟨rfl, by decide, by decide⟩

theorem headerValues_del_self (h : Headers) (k : String) :
    headerValues (headerDel h k) k = none := by
  induction h with
  | nil => rfl
  | cons e rest ih =>
    by_cases he : e.1 = k
    · simpa [headerDel, List.filter_cons, he] using ih
    · simpa [headerDel, headerValues, List.filter_cons, List.find?, he] using ih

theorem headerValues_del_other (h : Headers) (k k2 : String) (hne : k2 ≠ k) :
    headerValues (headerDel h k) k2 = headerValues h k2 := by
  induction h with
  | nil => rfl
  | cons e rest ih =>
    by_cases he : e.1 = k
    · simpa [headerDel, headerValues, List.filter_cons, List.find?_cons, he, hne.symm] using ih
    · by_cases he2 : e.1 = k2
      · simp [headerDel, headerValues, List.filter_cons, List.find?_cons, he, he2, hne]
      · simpa [headerDel, headerValues, List.filter_cons, List.find?_cons, he, he2] using ih

theorem headerValues_set_self (h : Headers) (k v : String) :
    headerValues (headerSet h k v) k = some [v] := by
  simp [headerValues, headerSet, List.find?]

theorem headerValues_set_other (h : Headers) (k v k2 : String) (hne : k2 ≠ k) :
    headerValues (headerSet h k v) k2 = headerValues h k2 := by
  have h1 : headerValues (headerSet h k v) k2 = headerValues (headerDel h k) k2 := by
    simp [headerSet, headerValues, List.find?_cons, hne.symm]
  rw [h1, headerValues_del_other h k k2 hne]

/-- C8: header handling of the CONNECT-dial wrapper.  With a non-empty
userinfo on the upstream URL the wrapper deletes any existing
`Proxy-Authorization` header and, when the username is non-empty, sets it
to `"Basic "` followed by the base64 encoding of the URL-decoded
user:password pair (other headers untouched); with no embedded
credentials the request headers are left unmodified. -/
theorem connectDial_credential_injection :
    ∀ (u : URL) (hdr : Headers),
      ((urlUserString u).length > 0 →
        ((urlUsername u).length > 0 →
          headerValues (connectDialHeaderEffect u hdr) ProxyAuthorizatonHeader =
            some ["Basic " ++ base64Encode
              ((queryUnescapeB (strBytes (urlUserString u))).getD [])]) ∧
        ((urlUsername u).length = 0 →
          headerValues (connectDialHeaderEffect u hdr) ProxyAuthorizatonHeader = none) ∧
        (∀ k, k ≠ ProxyAuthorizatonHeader →
          headerValues (connectDialHeaderEffect u hdr) k = headerValues hdr k)) ∧
      ((urlUserString u).length = 0 → connectDialHeaderEffect u hdr = hdr) := by
  intro u hdr
  constructor
  · intro hu
    refine ⟨?_, ?_, ?_⟩
    · intro hn
      simp only [connectDialHeaderEffect, if_pos hu, if_pos hn]
      exact headerValues_set_self _ _ _
    · intro hn
      have hn' : ¬ (urlUsername u).length > 0 := by omega
      simp only [connectDialHeaderEffect, if_pos hu, if_neg hn']
      exact headerValues_del_self _ _
    · intro k hk
      by_cases hn : (urlUsername u).length > 0
      · simp only [connectDialHeaderEffect, if_pos hu, if_pos hn]
        rw [headerValues_set_other _ _ _ _ hk]
        exact headerValues_del_other _ _ _ hk
      · simp only [connectDialHeaderEffect, if_pos hu, if_neg hn]
        exact headerValues_del_other _ _ _ hk
  · intro hu
    have hu' : ¬ (urlUserString u).length > 0 := by omega
    simp [connectDialHeaderEffect, hu']

/-- Witness for C8: an upstream URL with credentials `alice:p@ss` replaces
a stale `Proxy-Authorization` header with the freshly encoded Basic
credential, and a URL without credentials leaves the headers alone. -/
theorem connectDial_credential_injection_witness :
    headerValues
      (connectDialHeaderEffect ⟨"http", some ⟨"alice", some "p@ss"⟩, "proxy", ""⟩
        [(ProxyAuthorizatonHeader, ["Basic stale"]), ("Other", ["v"])])
      ProxyAuthorizatonHeader = some ["Basic YWxpY2U6cEBzcw=="] ∧
    connectDialHeaderEffect ⟨"http", none, "proxy", ""⟩
      [(ProxyAuthorizatonHeader, ["Basic stale"])] =
      [(ProxyAuthorizatonHeader, ["Basic stale"])] := by
  constructor
  · rw [(connectDial_credential_injection ⟨"http", some ⟨"alice", some "p@ss"⟩, "proxy", ""⟩
      [(ProxyAuthorizatonHeader, ["Basic stale"]), ("Other", ["v"])]).1 (by decide) |>.1
      (by decide)]
    rfl
  · exact (connectDial_credential_injection ⟨"http", none, "proxy", ""⟩
      [(ProxyAuthorizatonHeader, ["Basic stale"])]).2 (by decide)

theorem goSplitN2_basic (payload : String) :
    goSplitN2 ("Basic " ++ payload) ' ' = ["Basic", payload] := by
  unfold goSplitN2
  have h1 : "Basic ".data = "Basic".data ++ [' '] := by decide
  have hdata : ("Basic " ++ payload).data = "Basic".data ++ ' ' :: payload.data := by
    rw [String.data_append, h1, List.append_assoc]
    rfl
  rw [hdata, breakAtElem_append ' ' "Basic".data payload.data (by decide)]

theorem getBasicAuthData_eq (v : String) :
    getBasicAuthData v =
      (match goSplitN2 v ' ' with
       | [a, b] =>
         if a = "Basic" then
           match base64Decode b with
           | none => none
           | some raw =>
             match breakAtElem 58 raw with
             | none => none
             | some (u, p) => some ⟨u, p⟩
         else none
       | _ => none) := by
  unfold getBasicAuthData
  cases goSplitN2 v ' ' with
  | nil => simp
  | cons a rest =>
    cases rest with
    | nil => simp
    | cons b rest2 =>
      cases rest2 with
      | nil =>
        by_cases ha : a = "Basic"
        · simp [ha]
        · simp [ha]
      | cons c rest3 => simp

/-- C9: Basic header parsing splits the decoded credential bytes at the
first colon only.  For a `"Basic <b64>"` value whose payload decodes to
`user ++ ':' ++ password` with no colon in the user part, the parser
returns exactly that user and password (so passwords may contain colons);
and the parser returns Go `nil` exactly when the value does not split into
`["Basic", payload]`, the payload fails base64 decoding, or the decoded
bytes contain no colon (byte 58) at all. -/
theorem basicAuth_first_colon :
    (∀ (payload : String) (u p : List Nat),
      base64Decode payload = some (u ++ 58 :: p) → 58 ∉ u →
      getBasicAuthData ("Basic " ++ payload) = some ⟨u, p⟩) ∧
    (∀ v : String, getBasicAuthData v = none ↔
      ¬ ∃ (payload : String) (d : List Nat),
        goSplitN2 v ' ' = ["Basic", payload] ∧ base64Decode payload = some d ∧ 58 ∈ d) := by
  constructor
  · intro payload u p hdec hnotin
    rw [getBasicAuthData_eq, goSplitN2_basic payload]
    simp [hdec, breakAtElem_append 58 u p hnotin]
  · intro v
    rw [getBasicAuthData_eq]
    cases hsplit : goSplitN2 v ' ' with
    | nil => simp
    | cons a rest =>
      cases rest with
      | nil => simp
      | cons b rest2 =>
        cases rest2 with
        | cons c rest3 => simp
        | nil =>
          by_cases ha : a = "Basic"
          · subst ha
            cases hdec : base64Decode b with
            | none => simp [hdec]
            | some raw =>
              cases hbr : breakAtElem 58 raw with
              | none =>
                have hmem : (58 : Nat) ∉ raw := (breakAtElem_eq_none 58 raw).mp hbr
                simp [hdec, hbr, hmem]
              | some up =>
                obtain ⟨u0, p0⟩ := up
                obtain ⟨hraw, -⟩ := breakAtElem_eq_some 58 raw u0 p0 (by rw [hbr])
                have hm : (58 : Nat) ∈ raw := by
                  rw [hraw]
                  simp
                simp [hdec, hbr, hm]
          · simp [ha]

/-- Witness for C9: the payload decoding to `alice:s:cret` yields user
`alice` and password `s:cret` (the second colon stays in the password). -/
theorem basicAuth_first_colon_witness :
    getBasicAuthData ("Basic " ++ "YWxpY2U6czpjcmV0") =
      some ⟨strBytes "alice", strBytes "s:cret"⟩ :=
  basicAuth_first_colon.1 "YWxpY2U6czpjcmV0" (strBytes "alice") (strBytes "s:cret")
    (by decide) (by decide)

theorem suffix_eq_of_length_eq {host x y : String}
    (hx : goHasSuffix host x = true) (hy : goHasSuffix host y = true)
    (hlen : x.length = y.length) : x = y := by
  unfold goHasSuffix at hx hy
  rw [List.isSuffixOf_iff_suffix] at hx hy
  obtain ⟨t1, h1⟩ := hx
  obtain ⟨t2, h2⟩ := hy
  have hcat : t1 ++ x.data = t2 ++ y.data := h1.trans h2.symm
  have hl : x.data.length = y.data.length := hlen
  exact String.ext (List.append_inj_right' hcat hl)

theorem resolveStep_comm (conf : Configuration) (host : String) (x y : String)
    (st : ResolveState) :
    resolveStep conf host (resolveStep conf host st x) y =
      resolveStep conf host (resolveStep conf host st y) x := by
  by_cases hxy : x = y
  · rw [hxy]
  · cases hlx : goLookup conf.Proxies (aliasOf conf x) with
    | none => simp [resolveStep, hlx]
    | some px =>
      cases hly : goLookup conf.Proxies (aliasOf conf y) with
      | none => simp [resolveStep, hly]
      | some py =>
        by_cases hx : x = "."
        · subst hx
          have hy : y ≠ "." := fun h => hxy h.symm
          by_cases hcond : goHasSuffix host y ∧ ((y.length : Int) > st.mostSpecificLength)
          · simp [resolveStep, hlx, hly, hy, hcond]
          · simp [resolveStep, hlx, hly, hy, hcond]
        · by_cases hy : y = "."
          · subst hy
            by_cases hcond : goHasSuffix host x ∧ ((x.length : Int) > st.mostSpecificLength)
            · simp [resolveStep, hlx, hly, hx, hcond]
            · simp [resolveStep, hlx, hly, hx, hcond]
          · by_cases hsx : goHasSuffix host x
            · by_cases hsy : goHasSuffix host y
              · have hne : x.length ≠ y.length :=
                  fun h => hxy (suffix_eq_of_length_eq hsx hsy h)
                have hneZ : (x.length : Int) ≠ (y.length : Int) := by
                  exact_mod_cast hne
                simp only [resolveStep, hlx, hly, if_neg hx, if_neg hy, hsx, hsy, true_and]
                split_ifs <;> first | rfl | (exfalso; dsimp only at *; omega)
              · simp [resolveStep, hlx, hly, hx, hy, hsy]
            · simp [resolveStep, hlx, hly, hx, hy, hsx]

/-- C10: resolver determinism.  The result of `findMatchingProxy` does not
depend on the order in which the rule keys are scanned: any two
permutations of the key list (in particular any map iteration order
followed by any non-stable descending length sort) resolve every hostname
to the same proxy against unchanged tables. -/
theorem findMatchingProxy_deterministic :
    ∀ (keys1 keys2 : List String) (host : String) (conf : Configuration),
      keys1.Perm keys2 →
      findMatchingProxyWith keys1 host conf = findMatchingProxyWith keys2 host conf := by
  intro k1 k2 host conf hperm
  have hfold := hperm.foldl_eq'
    (fun x _ y _ z => resolveStep_comm conf host x y z) (⟨none, none, -1⟩ : ResolveState)
  simp only [findMatchingProxyWith]
  rw [hfold]

/-- Witness for C10: the two length-sorted scan orders of the keys
`example.com` and `.` resolve `www.example.com` identically. -/
theorem findMatchingProxy_deterministic_witness :
    findMatchingProxyWith ["example.com", "."] "www.example.com"
        ⟨[("example.com", "A"), (".", "B")], [("A", "http://p1"), ("B", "http://p2")], "", ""⟩ =
      findMatchingProxyWith [".", "example.com"] "www.example.com"
        ⟨[("example.com", "A"), (".", "B")], [("A", "http://p1"), ("B", "http://p2")], "", ""⟩ :=
  findMatchingProxy_deterministic ["example.com", "."] [".", "example.com"] "www.example.com"
    ⟨[("example.com", "A"), (".", "B")], [("A", "http://p1"), ("B", "http://p2")], "", ""⟩
    (by decide)

/-- Witness instantiating the separator characterisation of C3 at a
concrete position: in `a,"b,c"` the comma at index 4 lies inside the
quoted span, the one at index 1 does not. -/
theorem digestParse_quoted_commas_witness :
    ((4 ∈ separateCommasOf "a,\"b,c\"".data ↔
      4 ∈ commaPositionsOf "a,\"b,c\"".data ∧ insideQuotedSpan "a,\"b,c\"".data 4 = false) ∧
     separateCommasOf "a,\"b,c\"".data = [1]) :=
  ⟨digestParse_quoted_commas.2 "a,\"b,c\"".data 4, by decide⟩
